import Mathlib

/-!
Verification of `source/common/trt_calibrator.h` (class `TrtInt8Calibrator`).

The class is embedded shallowly:

* file contents are explicit values (`Option (List Char)` / `Option (List UInt8)`,
  `none` meaning the file does not exist or cannot be opened);
* the IEEE-754 `binary32` arithmetic performed by `setScaleFile`
  (`std::stof`, division by `127.0f`, bit reinterpretation through the
  `scaleField` union) is modelled exactly, as correctly rounded
  (round-to-nearest, ties-to-even) operations on exact rational values
  represented by numerator/denominator pairs of naturals plus a sign;
* the mutable object state is a structure, member functions become
  state-passing functions, and undefined behaviour (out-of-bounds vector
  access, null `shared_ptr` dereference) is mapped to `none`.
-/

namespace Forward

/-! ### IEEE-754 binary32 arithmetic, exact -/

/-- Round the nonnegative rational `N / D` (`D ≠ 0`) to the nearest integer,
ties to even — the rounding used by IEEE-754 `binary32` operations. -/
def rndHalfEven (N D : Nat) : Nat :=
  let k := N / D
  let r := N % D
  if 2 * r < D then k
  else if D < 2 * r then k + 1
  else if k % 2 = 0 then k else k + 1

/-- `⌊log₂ n⌋` (and `0` at `0`), by structural recursion on a fuel bound so
that it reduces definitionally. -/
def log2Fuel : Nat → Nat → Nat
  | 0, _ => 0
  | fuel + 1, n => if 2 ≤ n then log2Fuel fuel (n / 2) + 1 else 0

/-- `⌊log₂ n⌋` for `n ≥ 1`. -/
def natLog2 (n : Nat) : Nat := log2Fuel n n

/-- Least `k` with `2 ^ k ≥ c`. -/
def ceilLog2 (c : Nat) : Nat :=
  if c ≤ 1 then 0 else natLog2 (c - 1) + 1

/-- `⌊log₂ (n / d)⌋` for a positive rational `n / d`. -/
def floorLog2Q (n d : Nat) : Int :=
  if d ≤ n then Int.ofNat (natLog2 (n / d))
  else Int.neg (Int.ofNat (ceilLog2 ((d + n - 1) / n)))

/-- Bit pattern (sign bit excluded) of the `binary32` value nearest to the
positive rational `n / d`, ties to even; overflow yields the infinity pattern
`0x7f800000`, underflow the subnormal grid down to `0`. -/
def fp32magBits (n d : Nat) : Nat :=
  let e := floorLog2Q n d
  if e < -126 then rndHalfEven (n * 2 ^ 149) d
  else if 127 < e then 0x7f800000
  else
    let N := if 0 ≤ 23 - e then n * 2 ^ (23 - e).toNat else n
    let D := if 0 ≤ 23 - e then d else d * 2 ^ (e - 23).toNat
    (e + 126).toNat * 2 ^ 23 + rndHalfEven N D

/-- Bit pattern of the `binary32` value nearest to the signed rational
`(-1)^sg * n / d`. -/
def fp32ofSignMag (sg : Bool) (n d : Nat) : Nat :=
  (if sg then 2 ^ 31 else 0) + (if n = 0 then 0 else fp32magBits n d)

/-- Magnitude `n / d` encoded by a finite `binary32` bit pattern
(sign and NaN/infinity exponent ignored). -/
def fp32toMag (bits : Nat) : Nat × Nat :=
  let E := bits / 2 ^ 23 % 256
  let F := bits % 2 ^ 23
  if E = 0 then (F, 2 ^ 149)
  else if 150 ≤ E then ((2 ^ 23 + F) * 2 ^ (E - 150), 1)
  else (2 ^ 23 + F, 2 ^ (150 - E))

/-- Sign bit of a `binary32` bit pattern. -/
def fp32sign (bits : Nat) : Bool := bits / 2 ^ 31 = 1

/-- `x / 127.0f` on `binary32` bit patterns: the exact rational quotient,
correctly rounded (`127.0f` is exact, so this is IEEE division); infinities
and NaNs propagate unchanged. This is `std::stof(scaleStr) / 127.0f` in
`TrtInt8Calibrator::setScaleFile`. -/
def fp32divBy127 (bits : Nat) : Nat :=
  if bits / 2 ^ 23 % 256 = 255 then bits
  else
    let m := fp32toMag bits
    fp32ofSignMag (fp32sign bits) m.1 (m.2 * 127)

/-! ### `std::stof` on decimal inputs -/

/-- Decimal digit test. -/
def isDigitCh (c : Char) : Bool := decide ('0' ≤ c) && decide (c ≤ '9')

/-- Consume a maximal run of decimal digits; returns accumulated value,
digit count, and the remaining characters. -/
def parseDigits : List Char → Nat → Nat → Nat × Nat × List Char
  | c :: cs, acc, k =>
    if isDigitCh c then parseDigits cs (10 * acc + (c.toNat - 48)) (k + 1)
    else (acc, k, c :: cs)
  | [], acc, k => (acc, k, [])

/-- Optional exponent part `("e" | "E") sign? digits` of the `strtof`
grammar; `none` when absent or when no digits follow the marker (in which
case `strtof` backtracks and ignores it). -/
def parseExpTail (cs : List Char) : Option (Bool × Nat) :=
  let p := match cs with
    | '-' :: rest => (true, rest)
    | '+' :: rest => (false, rest)
    | _ => (false, cs)
  let r := parseDigits p.2 0 0
  if r.2.1 = 0 then none else some (p.1, r.1)

/-- Exponent parser entry point. -/
def parseExp : List Char → Option (Bool × Nat)
  | 'e' :: rest => parseExpTail rest
  | 'E' :: rest => parseExpTail rest
  | _ => none

/-- ASCII lower-casing, for the case-insensitive parts of the `strtof`
grammar (`0X`, `P`, `INF`, `NAN`, hex digits `A`-`F`). -/
def lowerCh (c : Char) : Char :=
  if 'A' ≤ c ∧ c ≤ 'Z' then Char.ofNat (c.toNat + 32) else c

/-- Hexadecimal digit test (both cases). -/
def isHexDigitCh (c : Char) : Bool :=
  isDigitCh c || (decide ('a' ≤ lowerCh c) && decide (lowerCh c ≤ 'f'))

/-- Octal digit test. -/
def isOctDigitCh (c : Char) : Bool := decide ('0' ≤ c) && decide (c ≤ '7')

/-- Letter test (both cases). -/
def isAlphaCh (c : Char) : Bool :=
  decide ('a' ≤ lowerCh c) && decide (lowerCh c ≤ 'z')

/-- Numeric value of a hexadecimal digit. -/
def hexVal (c : Char) : Nat :=
  if isDigitCh c then c.toNat - 48 else (lowerCh c).toNat - 87

/-- Consume a maximal run of hexadecimal digits; returns accumulated value,
digit count, and the remaining characters. -/
def parseHexDigits : List Char → Nat → Nat → Nat × Nat × List Char
  | c :: cs, acc, k =>
    if isHexDigitCh c then parseHexDigits cs (16 * acc + hexVal c) (k + 1)
    else (acc, k, c :: cs)
  | [], acc, k => (acc, k, [])

/-- Binary-exponent part `("p" | "P") sign? digits` of the hexadecimal
`strtof` grammar; `none` when absent or when no digits follow (then `strtof`
backtracks and ignores it). -/
def parseExpP : List Char → Option (Bool × Nat)
  | 'p' :: rest => parseExpTail rest
  | 'P' :: rest => parseExpTail rest
  | _ => none

/-- Case-insensitive keyword match: `some rest` when the input starts with
the (lowercase) pattern. -/
def matchCI : List Char → List Char → Option (List Char)
  | [], cs => some cs
  | _ :: _, [] => none
  | p :: ps, c :: cs => if lowerCh c = p then matchCI ps cs else none

/-- Character allowed in the n-char-sequence of `nan(...)`: digits, letters
and underscore. -/
def isNanSeqChar (c : Char) : Bool :=
  isDigitCh c || isAlphaCh c || decide (c = '_')

/-- `strtoull(seq, &endp, 0)` on the n-char-sequence of a `nan(...)`
spelling, as glibc's strtod uses it for the NaN payload: `some v` when the
whole sequence is a base-0 numeral (`0x`/`0X` hex, leading-`0` octal, else
decimal), `none` when it is not fully consumed (glibc then keeps the
default NaN payload). -/
def strtoullBase0 (seq : List Char) : Option Nat :=
  match seq with
  | ['0'] => some 0
  | '0' :: c :: rest =>
    if lowerCh c = 'x' then
      if rest ≠ [] ∧ rest.all isHexDigitCh then
        some (parseHexDigits rest 0 0).1
      else none
    else
      if (c :: rest).all isOctDigitCh then
        some (List.foldl (fun a ch => 8 * a + (ch.toNat - 48)) 0 (c :: rest))
      else none
  | _ =>
    if seq ≠ [] ∧ seq.all isDigitCh then some (parseDigits seq 0 0).1
    else none

/-- Sign bit contribution of a `binary32` pattern. -/
def signBit (sg : Bool) : Nat := if sg then 2 ^ 31 else 0

/-- Outcome of a `std::stof` call in the modelled fragment. -/
inductive StofOut
  /-- The call returns this `binary32` bit pattern. -/
  | ret (bits : Nat)
  /-- The call throws (`std::invalid_argument` or `std::out_of_range`). -/
  | throws
  /-- The input lies outside the modelled fragment: the model asserts
  nothing about the call's behaviour. -/
  | outside
deriving DecidableEq, Repr

/-- Largest odd divisor, by structural recursion on a fuel bound so that it
reduces definitionally. -/
def oddPartFuel : Nat → Nat → Nat
  | 0, n => n
  | fuel + 1, n => if n % 2 = 0 ∧ n ≠ 0 then oddPartFuel fuel (n / 2) else n

/-- Largest odd divisor of `n`. -/
def oddPart (n : Nat) : Nat := oddPartFuel n n

/-- The outcome of `std::stof` for an exactly parsed finite rational
`(-1)^sg * n / d`. libstdc++'s `std::stof` throws `std::out_of_range`
exactly when glibc's `strtof` leaves `errno = ERANGE`:

* overflow — the correctly rounded result is the infinity — always gives
  `ERANGE` (a throw);
* a value that is exactly representable (zero, any exactly representable
  subnormal such as `0x1p-149`, or any normal value) is returned with no
  error;
* a tiny value (`0 < n/d < 2^-126`) that is inexact and, correctly
  rounded, becomes zero gives `ERANGE` (a throw), as does one that stays
  a nonzero subnormal when its exact value is not dyadic — e.g. `1e-40`
  or `1e-60`;
* the remaining tiny inexact inputs are left outside the model: glibc's
  `strtof` denormalizes through a double rounding (the quotient is first
  rounded to 24 significand bits, then rounded again onto the subnormal
  grid, losing the first stage's round/sticky information), which makes
  both the delivered value and the `ERANGE` decision irregular for
  inputs whose value is dyadic (only those can produce exact ties at the
  two stages — e.g. `0x7ffffe.cp-149` is delivered misrounded with
  `ERANGE`, while `0x7fffff.4p-149` comes back without error), and for
  inputs that round up to the least normal `0x1p-126` from below (where
  `ERANGE` depends on where the trailing bits fall). -/
def finishStof (sg : Bool) (n d : Nat) : StofOut :=
  if n = 0 then StofOut.ret (signBit sg)
  else if n * 2 ^ 126 < d then
    if n * 2 ^ 149 % d = 0 then StofOut.ret (signBit sg + n * 2 ^ 149 / d)
    else if fp32magBits n d = 0 then StofOut.throws
    else if n % oddPart d = 0 then StofOut.outside
    else if fp32magBits n d = 2 ^ 23 then StofOut.outside
    else StofOut.throws
  else
    if fp32magBits n d = 0x7f800000 then StofOut.throws
    else StofOut.ret (signBit sg + fp32magBits n d)

/-- Decimal branch of `strtof`:
`digits* ("." digits*)? (("e"|"E") sign? digits)?` with at least one
significand digit; with no digit there is no conversion and `std::stof`
throws `std::invalid_argument`, otherwise the exact decimal value goes
through `finishStof`. The exponent is clamped to `digits + 200`: with `k`
significand digits the significand lies in `[10^-k, 10^k]`, so any
exponent beyond that bound already guarantees an overflow (throw) or a
round-to-zero underflow (throw), and the clamp does not change the
outcome. -/
def stofDec (sg : Bool) (cs : List Char) : StofOut :=
  let ip := parseDigits cs 0 0
  let fp : Nat × Nat × List Char := match ip.2.2 with
    | '.' :: rest => parseDigits rest 0 0
    | _ => (0, 0, ip.2.2)
  if ip.2.1 + fp.2.1 = 0 then StofOut.throws
  else
    let num := ip.1 * 10 ^ fp.2.1 + fp.1
    let den := 10 ^ fp.2.1
    let bound := ip.2.1 + fp.2.1 + 200
    match parseExp fp.2.2 with
    | none => finishStof sg num den
    | some (true, x) => finishStof sg num (den * 10 ^ min x bound)
    | some (false, x) => finishStof sg (num * 10 ^ min x bound) den

/-- Hexadecimal branch of `strtof`, entered after `0x`/`0X`:
`hexdigits* ("." hexdigits*)? (("p"|"P") sign? digits)?`. With no hex digit
at all `strtof` backtracks and the subject sequence is the plain `0`
(value zero); otherwise the exact value `mantissa * 2^exponent` goes
through `finishStof`. The binary exponent is clamped to
`4 * hexdigits + 300`, beyond which the outcome (overflow throw or
round-to-zero underflow throw) no longer depends on it. -/
def stofHex (sg : Bool) (cs : List Char) : StofOut :=
  let ip := parseHexDigits cs 0 0
  let fp : Nat × Nat × List Char := match ip.2.2 with
    | '.' :: rest => parseHexDigits rest 0 0
    | _ => (0, 0, ip.2.2)
  if ip.2.1 + fp.2.1 = 0 then StofOut.ret (signBit sg)
  else
    let num := ip.1 * 16 ^ fp.2.1 + fp.1
    let den := 16 ^ fp.2.1
    let bound := 4 * (ip.2.1 + fp.2.1) + 300
    match parseExpP fp.2.2 with
    | none => finishStof sg num den
    | some (true, x) => finishStof sg num (den * 2 ^ min x bound)
    | some (false, x) => finishStof sg (num * 2 ^ min x bound) den

/-- `nan` spellings: plain `nan` (any case) gives glibc's default quiet NaN
`0x7fc00000` (with the sign applied); `nan(n-char-sequence)` sets the low
22 mantissa bits from the base-0 numeral value of the sequence (glibc's
`SET_NAN_PAYLOAD` via `strtoull`; a sequence that is not a full numeral
keeps the default payload; a missing closing parenthesis backtracks to
plain `nan`). A payload numeral exceeding `ULLONG_MAX` makes that inner
`strtoull` set `errno = ERANGE`, which `std::stof` then reports as
`std::out_of_range` (a throw). -/
def stofNan (sg : Bool) (rest : List Char) : StofOut :=
  match rest with
  | '(' :: more =>
    let seq := more.takeWhile isNanSeqChar
    match more.drop seq.length with
    | ')' :: _ =>
      match strtoullBase0 seq with
      | some v =>
        if v < 2 ^ 64 then
          StofOut.ret (signBit sg + 0x7fc00000 + v % 2 ^ 22)
        else StofOut.throws
      | none => StofOut.ret (signBit sg + 0x7fc00000)
    | _ => StofOut.ret (signBit sg + 0x7fc00000)
  | _ => StofOut.ret (signBit sg + 0x7fc00000)

/-- `std::stof(scaleStr)` (libstdc++ over glibc `strtof`, "C" locale):
`ret bits` is the `binary32` bit pattern returned, `throws` an exiting
exception (`std::invalid_argument` when no characters are converted,
`std::out_of_range` when `errno` ends up `ERANGE`), and `outside` marks
the narrow unmodelled set of `finishStof` (tiny inexact values in glibc's
irregular double-rounding zone). The full `strtof` subject grammar is
modelled: optional whitespace and sign, then an `inf`/`infinity` spelling
(returns the infinity, no range error), a `nan` spelling with optional
payload, a `0x`/`0X` hexadecimal float, or a decimal float; in each case
the longest valid prefix is the subject and trailing characters are
ignored. Returned values are correctly rounded, round-to-nearest
ties-to-even. -/
def stofCpp (cs0 : List Char) : StofOut :=
  let cs1 := cs0.dropWhile fun c => c = ' ' || c = '\t' || c = '\n' ||
    c = '\x0b' || c = '\x0c' || c = '\r'
  let sp : Bool × List Char := match cs1 with
    | '-' :: rest => (true, rest)
    | '+' :: rest => (false, rest)
    | _ => (false, cs1)
  match matchCI ("infinity".toList) sp.2 with
  | some _ => StofOut.ret (signBit sp.1 + 0x7f800000)
  | none =>
  match matchCI ("inf".toList) sp.2 with
  | some _ => StofOut.ret (signBit sp.1 + 0x7f800000)
  | none =>
  match matchCI ("nan".toList) sp.2 with
  | some rest => stofNan sp.1 rest
  | none =>
  match sp.2 with
  | '0' :: x :: more =>
    if lowerCh x = 'x' then stofHex sp.1 more else stofDec sp.1 sp.2
  | _ => stofDec sp.1 sp.2

/-! ### `setScaleFile` text processing -/

/-- Split at the first occurrence of `delim`: `some (before, after)` when
present, `none` when absent. -/
def splitAtDelim : List Char → Char → Option (List Char × List Char)
  | [], _ => none
  | c :: cs, d =>
    if c = d then some ([], cs)
    else (splitAtDelim cs d).map fun p => (c :: p.1, p.2)

/-- One `std::getline(stream, var, delim)` call on an in-memory stream.
`rest` is the unread part of the stream, `good` its state (sentry fails once
eofbit/failbit is set, leaving `var` untouched); on a good stream the target
string is erased and filled up to the delimiter, and reaching end-of-input
without the delimiter sets eofbit. Returns `(rest, good, var)` afterwards. -/
def cppGetline (rest : List Char) (good : Bool) (var : List Char)
    (delim : Char) : List Char × Bool × List Char :=
  if good then
    match splitAtDelim rest delim with
    | some p => (p.2, true, p.1)
    | none => ([], false, rest)
  else (rest, false, var)

/-- Body of the `while (std::getline(fi, line))` loop of `setScaleFile` for a
single line. `tn`/`ss` are the current values of the loop-carried variables
`tensorName` and `scaleStr` (declared outside the loop in the source).
Returns the updated pair and the characters appended to the cache file. An
inner `none` output models the uncaught `std::stof` exception
(`std::invalid_argument` or `std::out_of_range`, see `stofCpp`); the outer
`none` marks a scale string outside the modelled `std::stof` fragment,
about which the model asserts nothing. -/
def transcodeLine (tn ss line : List Char) :
    Option ((List Char × List Char) × Option (List Char)) :=
  let r1 := cppGetline line true tn ':'
  let r2 := cppGetline r1.1 r1.2.1 ss ':'
  let tn1 := r1.2.2
  let ss1 := r2.2.2
  if ss1.length = 0 then some ((tn1, ss1), some (tn1 ++ ['\n']))
  else
    match stofCpp ss1 with
    | StofOut.outside => none
    | StofOut.throws => some ((tn1, ss1), none)
    | StofOut.ret b =>
      some ((tn1, ss1),
        some (tn1 ++ (": ".toList) ++ Nat.toDigits 16 (fp32divBy127 b) ++
          ['\n']))

/-- The whole transcoding loop: returns the characters written to the cache
file and whether a `std::stof` exception escaped (output written before the
throwing line is kept, as the stream was flushed line by line); `none` when
some line's scale string falls outside the modelled `std::stof` fragment,
in which case nothing is asserted. -/
def transcodeLines (tn ss : List Char) :
    List (List Char) → Option (List Char × Bool)
  | [] => some ([], false)
  | l :: ls =>
    match transcodeLine tn ss l with
    | none => none
    | some (_, none) => some ([], true)
    | some (st, some out) =>
      match transcodeLines st.1 st.2 ls with
      | none => none
      | some r => some (out ++ r.1, r.2)

/-- The sequence of strings produced by iterating `std::getline(fi, line)`
over a file with the given contents: lines are separated by `'\n'`, a final
line without a trailing newline is still produced, and a trailing newline
does not produce an extra empty line. -/
def splitLinesCpp : List Char → List (List Char)
  | [] => []
  | c :: cs =>
    if c = '\n' then [] :: splitLinesCpp cs
    else
      match splitLinesCpp cs with
      | [] => [[c]]
      | l :: ls => (c :: l) :: ls

/-- `TrtInt8Calibrator::setScaleFile`, acting on file contents.
`overrideFile` is the content of the user scale file (`none` when it cannot
be opened); `oldCache` the previous content of the calibration cache file.
The source constructs `std::ofstream fo(mCalibrationTableName)` — which
creates/truncates the cache file — *before* testing `if (!fi)`.
Returns `(new cache file content, error diagnostic printed, stof exception
escaped)`; the outer `none` marks a run containing a scale string outside
the modelled `std::stof` fragment, about which the model asserts
nothing. -/
def setScaleFileModel (overrideFile : Option (List Char))
    (oldCache : Option (List Char)) :
    Option (Option (List Char) × Bool × Bool) :=
  match overrideFile, oldCache with
  | none, _ => some (some [], true, false)
  | some content, _ =>
    match transcodeLines [] [] (splitLinesCpp content) with
    | none => none
    | some r => some (some r.1, false, r.2)

/-! ### Calibrator state -/

/-- `nvinfer1::CalibrationAlgoType`, the closed selector set. -/
inductive CalibrationAlgoType
  | kLEGACY_CALIBRATION
  | kENTROPY_CALIBRATION
  | kENTROPY_CALIBRATION_2
  | kMINMAX_CALIBRATION
deriving DecidableEq, Repr

/-- The `STR2CAT_MAPPING` lookup table (`unordered_map::find`; `none` models
the past-the-end iterator whose dereference in the constructors is undefined
behaviour). -/
def STR2CAT_MAPPING (key : String) : Option CalibrationAlgoType :=
  if key = "legacy" then some CalibrationAlgoType.kLEGACY_CALIBRATION
  else if key = "entropy" then some CalibrationAlgoType.kENTROPY_CALIBRATION
  else if key = "entropy_2" then some CalibrationAlgoType.kENTROPY_CALIBRATION_2
  else if key = "minmax" then some CalibrationAlgoType.kMINMAX_CALIBRATION
  else none

/-- The external `IBatchStream` collaborator: the batches still to be
delivered, the batch made current by the last successful `next()`, the
per-input byte sizes (`bytesPerBatch()`), and the batch size
(`getBatchSize()`). A batch is one host buffer (byte list) per model
input. -/
structure IBatchStream where
  remaining : List (List (List UInt8))
  cur : List (List UInt8)
  bytesPerBatch : List Nat
  batchSize : Nat
deriving Repr

/-- `IBatchStream::next()`: advance to the next batch, `false` on
exhaustion. -/
def IBatchStream.next (s : IBatchStream) : Bool × IBatchStream :=
  match s.remaining with
  | [] => (false, s)
  | b :: rest => (true, ⟨rest, b, s.bytesPerBatch, s.batchSize⟩)

/-- One device-memory region obtained from `cudaMalloc`: its capacity in
bytes and its contents (`none` until the first copy, since `cudaMalloc`
leaves the memory uninitialized; afterwards the bytes stored by the last
`cudaMemcpy`). -/
structure DeviceBuffer where
  cap : Nat
  content : Option (List UInt8)
deriving Repr, DecidableEq

/-- The mutable state of a `TrtInt8Calibrator` object. `mStream` is `none`
for the null `shared_ptr` of the cache-replay constructor; bindings store
device-buffer addresses, modelled as the buffer's index in `m_buffers`. -/
structure TrtInt8Calibrator where
  mStream : Option IBatchStream
  m_buffers : List DeviceBuffer
  mInputBytes : List Nat
  mQuantile : Rat
  mCalibrationCache : List UInt8
  mCalibrationTableName : String
  mAlgo : CalibrationAlgoType
  mBatchSize : Nat
deriving Repr

/-- Stream-fed constructor
`TrtInt8Calibrator(stream, cacheFilename, algo)`. `indetQuantile` stands for
the indeterminate value of the member `mQuantile`, which this constructor
never initializes (it is absent from the init list and the body and has no
default member initializer). One device buffer of `mBatchSize * bytes` bytes
is `cudaMalloc`ed per entry of `stream->bytesPerBatch()`. `none` models the
undefined behaviour of dereferencing `STR2CAT_MAPPING.find(algo)` for an
unknown key. -/
def mkCalibratorStream (stream : IBatchStream) (cacheFilename : String)
    (algo : String) (indetQuantile : Rat) : Option TrtInt8Calibrator :=
  (STR2CAT_MAPPING algo).map fun a =>
    ⟨some stream,
     stream.bytesPerBatch.map fun bytes => ⟨stream.batchSize * bytes, none⟩,
     stream.bytesPerBatch,
     indetQuantile,
     [],
     cacheFilename,
     a,
     stream.batchSize⟩

/-- Cache-replay / override constructor
`TrtInt8Calibrator(cacheFilename, algo, batchsize, quantile)`: no stream, no
device buffers; `mQuantile` is set from the parameter. -/
def mkCalibratorReplay (cacheFilename : String) (algo : String)
    (batchsize : Nat) (quantile : Rat) : Option TrtInt8Calibrator :=
  (STR2CAT_MAPPING algo).map fun a =>
    ⟨none, [], [], quantile, [], cacheFilename, a, batchsize⟩

/-- The default value of the `quantile` parameter of the cache-replay
constructor, the literal `0.9999` (as an exact decimal; the `float`
rounding of the literal is immaterial to the claims). -/
def defaultQuantile : Rat := 9999 / 10000

/-- `getBatchSize()`. -/
def TrtInt8Calibrator.getBatchSize (c : TrtInt8Calibrator) : Nat :=
  c.mBatchSize

/-- `getAlgorithm()`. -/
def TrtInt8Calibrator.getAlgorithm (c : TrtInt8Calibrator) :
    CalibrationAlgoType :=
  c.mAlgo

/-- `getQuantile()`. -/
def TrtInt8Calibrator.getQuantile (c : TrtInt8Calibrator) : Rat :=
  c.mQuantile

/-- The `for (int i = 0; i < nbBindings; ++i)` loop of `getBatch`: for each
`i`, `cudaMemcpy(m_buffers[i], batch_ptrs[i], mInputBytes[i] * mBatchSize,
cudaMemcpyHostToDevice)` followed by `bindings[i] = m_buffers[i]`. The
second argument of the recursion is the number of iterations left. `none`
models undefined behaviour: an out-of-range vector or array access, a host
source buffer shorter than the copied size, or a device buffer smaller than
the copied size. -/
def copyLoop (ptrs : List (List UInt8)) (inputBytes : List Nat)
    (batchSize : Nat) : List DeviceBuffer → List (Option Nat) → Nat → Nat →
    Option (List DeviceBuffer × List (Option Nat))
  | bufs, binds, _, 0 => some (bufs, binds)
  | bufs, binds, i, k + 1 =>
    match bufs[i]?, ptrs[i]?, inputBytes[i]? with
    | some b, some src, some bytes =>
      if i < binds.length ∧ bytes * batchSize ≤ src.length ∧
          bytes * batchSize ≤ b.cap then
        copyLoop ptrs inputBytes batchSize
          (bufs.set i ⟨b.cap, some (src.take (bytes * batchSize))⟩)
          (binds.set i (some i)) (i + 1) k
      else none
    | _, _, _ => none

/-- `getBatch(bindings, names, nbBindings)`: if `mStream->next()` fails,
return `false` with nothing copied and the bindings untouched; otherwise
copy each input's batch bytes to its device buffer, store the buffer
addresses into the bindings, and return `true`. The outer `none` models the
undefined behaviour of a null `mStream` or of the loop. -/
def TrtInt8Calibrator.getBatch (c : TrtInt8Calibrator)
    (bindings : List (Option Nat)) (nbBindings : Nat) :
    Option (TrtInt8Calibrator × List (Option Nat) × Bool) :=
  match c.mStream with
  | none => none
  | some s =>
    match s.remaining with
    | [] => some (c, bindings, false)
    | b :: rest =>
      let s1 : IBatchStream := ⟨rest, b, s.bytesPerBatch, s.batchSize⟩
      match copyLoop b c.mInputBytes c.mBatchSize c.m_buffers bindings 0
          nbBindings with
      | none => none
      | some r =>
        some (⟨some s1, r.1, c.mInputBytes, c.mQuantile, c.mCalibrationCache,
               c.mCalibrationTableName, c.mAlgo, c.mBatchSize⟩, r.2, true)

/-- `readCalibrationCache(length)`: `file` is the current content of the
cache file (`none` when it does not exist / cannot be opened). Returns the
updated object (the bytes are read into `mCalibrationCache`), the returned
pointer (`none` models `nullptr`, `some bytes` a pointer to the member
buffer holding `bytes`), and the value stored into `length`. A missing file
is not an error: the function returns normally. -/
def TrtInt8Calibrator.readCalibrationCache (c : TrtInt8Calibrator)
    (file : Option (List UInt8)) :
    TrtInt8Calibrator × Option (List UInt8) × Nat :=
  match file with
  | none => (c, none, 0)
  | some bytes =>
    (⟨c.mStream, c.m_buffers, c.mInputBytes, c.mQuantile, bytes,
      c.mCalibrationTableName, c.mAlgo, c.mBatchSize⟩,
     some bytes, bytes.length)

/-- `writeCalibrationCache(cache, length)`: the cache file is opened with
`std::ofstream` (truncating any previous content) and exactly `length`
bytes from the buffer at `cache` are written. Returns the new content of
the cache file; no member is modified and no status is reported. -/
def TrtInt8Calibrator.writeCalibrationCache (cache : List UInt8)
    (length : Nat) : List UInt8 :=
  cache.take length

/-! ### Operation sequences -/

/-- One externally invokable operation on a constructed calibrator,
carrying the file contents it observes. -/
inductive CalOp
  | opGetBatch (bindings : List (Option Nat)) (nbBindings : Nat)
  | opReadCache (file : Option (List UInt8))
  | opWriteCache (cache : List UInt8) (length : Nat)
  | opSetScaleFile (overrideFile : Option (List Char))
      (oldCache : Option (List Char))

/-- Effect of one operation on the object state (`writeCalibrationCache` and
`setScaleFile` only touch files, never members); `none` once an operation
hits undefined behaviour. -/
def stepOp (c : TrtInt8Calibrator) : CalOp → Option TrtInt8Calibrator
  | CalOp.opGetBatch b n => (c.getBatch b n).map fun r => r.1
  | CalOp.opReadCache f => some (c.readCalibrationCache f).1
  | CalOp.opWriteCache _ _ => some c
  | CalOp.opSetScaleFile _ _ => some c

/-- Run a sequence of operations. -/
def execOps (c : TrtInt8Calibrator) : List CalOp → Option TrtInt8Calibrator
  | [] => some c
  | op :: ops =>
    match stepOp c op with
    | none => none
    | some c1 => execOps c1 ops

/-! ### Concrete instances used by witnesses -/

/-- A two-batch stream with one model input of 2 bytes per sample and batch
size 2. -/
def demoStream : IBatchStream := ⟨[[[1, 2, 3, 4]]], [], [2], 2⟩

/-- The calibrator built by the stream-fed constructor from `demoStream`
(indeterminate quantile arbitrarily observed as 0). -/
def demoCalib : TrtInt8Calibrator :=
  ⟨some demoStream, [⟨4, none⟩], [2], 0, [], "cache",
   CalibrationAlgoType.kENTROPY_CALIBRATION, 2⟩

/-- The result of `demoCalib.getBatch [none] 1`: stream advanced, the 4
batch bytes copied to device buffer 0, its address bound, success. -/
def demoResult : TrtInt8Calibrator × List (Option Nat) × Bool :=
  (⟨some ⟨[], [[1, 2, 3, 4]], [2], 2⟩, [⟨4, some [1, 2, 3, 4]⟩], [2], 0, [],
    "cache", CalibrationAlgoType.kENTROPY_CALIBRATION, 2⟩,
   [some 0], true)

/-- Same construction as `demoCalib` but with a different indeterminate
quantile value (5) left in the uninitialized member. -/
def demoCalibQ : TrtInt8Calibrator :=
  ⟨some demoStream, [⟨4, none⟩], [2], 5, [], "cache",
   CalibrationAlgoType.kENTROPY_CALIBRATION, 2⟩

/-- A three-input stream: byte sizes 100, 50, 25, batch size 4. -/
def demoStream3 : IBatchStream := ⟨[], [], [100, 50, 25], 4⟩

/-- The calibrator built by the stream-fed constructor from `demoStream3`. -/
def demoCalib3 : TrtInt8Calibrator :=
  ⟨some demoStream3, [⟨400, none⟩, ⟨200, none⟩, ⟨100, none⟩],
   [100, 50, 25], 0, [], "cache",
   CalibrationAlgoType.kENTROPY_CALIBRATION, 4⟩

/-- The calibrator built by the cache-replay constructor with key
`"minmax"`, batch size 3, quantile 1. -/
def demoReplay : TrtInt8Calibrator :=
  ⟨none, [], [], 1, [], "cache",
   CalibrationAlgoType.kMINMAX_CALIBRATION, 3⟩

/-- `demoReplay` after reading a one-byte cache file. -/
def demoReplayRead : TrtInt8Calibrator :=
  ⟨none, [], [], 1, [7], "cache",
   CalibrationAlgoType.kMINMAX_CALIBRATION, 3⟩

/-! ### Helper lemmas -/

theorem splitAtDelim_append (pre post : List Char) (d : Char) (h : d ∉ pre) :
    splitAtDelim (pre ++ d :: post) d = some (pre, post) := by
  induction pre with
  | nil => simp [splitAtDelim]
  | cons c cs ih =>
    have hc : ¬ c = d := fun e => h (e ▸ List.mem_cons_self c cs)
    simp only [List.cons_append, splitAtDelim, if_neg hc, List.append_eq,
      ih fun hm => h (List.mem_cons_of_mem _ hm), Option.map_some']

theorem splitAtDelim_of_not_mem (l : List Char) (d : Char) (h : d ∉ l) :
    splitAtDelim l d = none := by
  induction l with
  | nil => rfl
  | cons c cs ih =>
    have hc : ¬ c = d := fun e => h (e ▸ List.mem_cons_self c cs)
    simp only [splitAtDelim, if_neg hc,
      ih fun hm => h (List.mem_cons_of_mem _ hm), Option.map_none']

theorem map_cap_set (l : List DeviceBuffer) (i : Nat) (b : DeviceBuffer)
    (x : Option (List UInt8)) (h : l[i]? = some b) :
    (l.set i ⟨b.cap, x⟩).map DeviceBuffer.cap = l.map DeviceBuffer.cap := by
  induction l generalizing i with
  | nil => simp at h
  | cons a as ih =>
    cases i with
    | zero =>
      simp only [List.getElem?_cons_zero, Option.some.injEq] at h
      subst h
      simp [List.set]
    | succ n =>
      simp only [List.getElem?_cons_succ] at h
      simp [List.set, ih n h]

theorem copyLoop_caps (ptrs : List (List UInt8)) (ib : List Nat) (bs : Nat) :
    ∀ (k i : Nat) (bufs : List DeviceBuffer) (binds : List (Option Nat)) r,
      copyLoop ptrs ib bs bufs binds i k = some r →
      r.1.map DeviceBuffer.cap = bufs.map DeviceBuffer.cap := by
  intro k
  induction k with
  | zero =>
    intro i bufs binds r h
    simp only [copyLoop, Option.some.injEq] at h
    rw [← h]
  | succ k ih =>
    intro i bufs binds r h
    rw [copyLoop] at h
    split at h
    case h_1 b src bytes hb hp hib =>
      split at h
      case isTrue hcond =>
        rw [ih _ _ _ r h, map_cap_set bufs i b _ hb]
      case isFalse => exact absurd h (by simp)
    case h_2 => exact absurd h (by simp)

theorem copyLoop_spec (ptrs : List (List UInt8)) (ib : List Nat) (bs : Nat) :
    ∀ (k i : Nat) (bufs : List DeviceBuffer) (binds : List (Option Nat)) r,
      copyLoop ptrs ib bs bufs binds i k = some r →
      (∀ j, j < i ∨ i + k ≤ j → r.1[j]? = bufs[j]? ∧ r.2[j]? = binds[j]?) ∧
      (∀ j, i ≤ j → j < i + k →
        ∃ b src bytes, bufs[j]? = some b ∧ ptrs[j]? = some src ∧
          ib[j]? = some bytes ∧
          r.1[j]? = some ⟨b.cap, some (src.take (bytes * bs))⟩ ∧
          r.2[j]? = some (some j)) := by
  intro k
  induction k with
  | zero =>
    intro i bufs binds r h
    simp only [copyLoop, Option.some.injEq] at h
    subst h
    exact ⟨fun j _ => ⟨rfl, rfl⟩, fun j h1 h2 => absurd h2 (by omega)⟩
  | succ k ih =>
    intro i bufs binds r h
    rw [copyLoop] at h
    split at h
    case h_1 b src bytes hb hp hib =>
      split at h
      case isTrue hcond =>
        obtain ⟨hout, hin⟩ := ih (i + 1) _ _ r h
        have hblen : i < bufs.length := by
          rcases List.getElem?_eq_some.mp hb with ⟨hl, _⟩
          exact hl
        constructor
        · intro j hj
          have hne : i ≠ j := by omega
          have hu := hout j (by omega)
          rwa [List.getElem?_set_ne hne, List.getElem?_set_ne hne] at hu
        · intro j h1 h2
          rcases Nat.eq_or_lt_of_le h1 with h1e | h1l
          · subst h1e
            refine ⟨b, src, bytes, hb, hp, hib, ?_, ?_⟩
            · have hu := (hout i (Or.inl (by omega))).1
              rwa [List.getElem?_set_self hblen] at hu
            · have hu := (hout i (Or.inl (by omega))).2
              rwa [List.getElem?_set_self hcond.1] at hu
          · obtain ⟨b1, src1, bytes1, hb1, hp1, hib1, hr1, hr2⟩ :=
              hin j h1l (by omega)
            rw [List.getElem?_set_ne (by omega : i ≠ j)] at hb1
            exact ⟨b1, src1, bytes1, hb1, hp1, hib1, hr1, hr2⟩
      case isFalse => exact absurd h (by simp)
    case h_2 => exact absurd h (by simp)

theorem stepOp_preserves (c : TrtInt8Calibrator) (op : CalOp)
    (c1 : TrtInt8Calibrator) (h : stepOp c op = some c1) :
    c1.mAlgo = c.mAlgo ∧ c1.mBatchSize = c.mBatchSize ∧
    c1.m_buffers.map DeviceBuffer.cap = c.m_buffers.map DeviceBuffer.cap := by
  cases op with
  | opGetBatch b n =>
    simp only [stepOp, Option.map_eq_some'] at h
    obtain ⟨r, hr, hc1⟩ := h
    subst hc1
    rw [TrtInt8Calibrator.getBatch] at hr
    split at hr
    case h_1 => exact absurd hr (by simp)
    case h_2 s hs =>
      split at hr
      case h_1 =>
        simp only [Option.some.injEq] at hr
        rw [← hr]
        exact ⟨rfl, rfl, rfl⟩
      case h_2 batch rest hrem =>
        split at hr
        case h_1 => exact absurd hr (by simp)
        case h_2 rr hcopy =>
          simp only [Option.some.injEq] at hr
          rw [← hr]
          exact ⟨rfl, rfl, copyLoop_caps _ _ _ _ _ _ _ _ hcopy⟩
  | opReadCache f =>
    simp only [stepOp, Option.some.injEq] at h
    subst h
    cases f with
    | none => exact ⟨rfl, rfl, rfl⟩
    | some bytes => exact ⟨rfl, rfl, rfl⟩
  | opWriteCache cache len =>
    simp only [stepOp, Option.some.injEq] at h
    subst h
    exact ⟨rfl, rfl, rfl⟩
  | opSetScaleFile ov old =>
    simp only [stepOp, Option.some.injEq] at h
    subst h
    exact ⟨rfl, rfl, rfl⟩

theorem execOps_preserves (ops : List CalOp) :
    ∀ (c c1 : TrtInt8Calibrator), execOps c ops = some c1 →
      c1.mAlgo = c.mAlgo ∧ c1.mBatchSize = c.mBatchSize ∧
      c1.m_buffers.map DeviceBuffer.cap =
        c.m_buffers.map DeviceBuffer.cap := by
  induction ops with
  | nil =>
    intro c c1 h
    simp only [execOps, Option.some.injEq] at h
    subst h
    exact ⟨rfl, rfl, rfl⟩
  | cons op ops ih =>
    intro c c1 h
    rw [execOps] at h
    split at h
    case h_1 => exact absurd h (by simp)
    case h_2 cmid hmid =>
      obtain ⟨h1, h2, h3⟩ := ih cmid c1 h
      obtain ⟨g1, g2, g3⟩ := stepOp_preserves c op cmid hmid
      exact ⟨h1.trans g1, h2.trans g2, h3.trans g3⟩

/-! ### Claims -/

/-- C1: the claim says that when the override file cannot be opened,
`setScaleFile` emits a diagnostic, aborts, and leaves the existing cache
file's contents exactly as they were. The code does emit the diagnostic and
abort, but it constructs `std::ofstream fo(mCalibrationTableName)` *before*
the `if (!fi)` check, so the existing cache file is truncated to zero bytes:
evaluated at a missing override file and a cache previously containing
`"convA: 3c810204\n"`, the cache ends up empty, not untouched. -/
theorem C1_missing_override_truncates_cache :
    setScaleFileModel none (some ("convA: 3c810204\n".toList)) =
      some (some [], true, false) ∧
    (some ([] : List Char) = some ("convA: 3c810204\n".toList)) = False :=
  ⟨rfl, eq_false (by decide)⟩

set_option maxRecDepth 100000 in
/-- C2: every override line `name:scale` whose scale field makes
`std::stof` return a value `bits` is transcoded by `setScaleFile` to
`name: <lowercase hex of bits(stof(scale) / 127.0f)>`, an empty scale field
to the bare name (a scale on which `std::stof` throws aborts the line with
no output); and the file `"convA:2.0\nconvB:\n"` produces exactly the
cache content `"convA: 3c810204\nconvB\n"` (`0x3c810204` being the bit
pattern of `2.0f / 127.0f`), whatever the cache file held before.
Concrete probes pin the boundary semantics down: `"2.0"` parses to
`0x40000000` (2.0f) and `2.0f / 127.0f` is `0x3c810204`; the hexadecimal
float `"0x1p3"` parses to `0x41000000` (8.0f) whose quotient prints as
`3d810204`; `"1e100"` (overflow) and `"1e-40"` (inexact subnormal
underflow) make `std::stof` throw `std::out_of_range`. -/
theorem C2_transcode_lines :
    (∀ tn ss name scale : List Char, ':' ∉ name → ':' ∉ scale →
      (scale = [] →
        transcodeLine tn ss (name ++ ':' :: scale) =
          some ((name, []), some (name ++ ['\n']))) ∧
      (∀ bits, stofCpp scale = StofOut.ret bits → scale ≠ [] →
        transcodeLine tn ss (name ++ ':' :: scale) =
          some ((name, scale),
            some (name ++ ": ".toList ++
              Nat.toDigits 16 (fp32divBy127 bits) ++ ['\n']))) ∧
      (stofCpp scale = StofOut.throws → scale ≠ [] →
        transcodeLine tn ss (name ++ ':' :: scale) =
          some ((name, scale), none))) ∧
    (∀ oldCache, setScaleFileModel (some ("convA:2.0\nconvB:\n".toList))
        oldCache =
      some (some ("convA: 3c810204\nconvB\n".toList), false, false)) ∧
    stofCpp ("2.0".toList) = StofOut.ret 0x40000000 ∧
    fp32divBy127 0x40000000 = 0x3c810204 ∧
    stofCpp ("0x1p3".toList) = StofOut.ret 0x41000000 ∧
    Nat.toDigits 16 (fp32divBy127 0x41000000) = "3d810204".toList ∧
    stofCpp ("1e100".toList) = StofOut.throws ∧
    stofCpp ("1e-40".toList) = StofOut.throws := by
  refine ⟨?_, ?_, rfl, rfl, rfl, rfl, rfl, rfl⟩
  · intro tn ss name scale hn hs
    refine ⟨?_, ?_, ?_⟩
    · rintro rfl
      simp only [transcodeLine, cppGetline, if_pos trivial,
        splitAtDelim_append name [] ':' hn, splitAtDelim, List.length_nil,
        if_pos rfl]
    · intro bits hparse hne
      have hlen : ¬ (scale.length = 0) := by
        simpa [List.length_eq_zero] using hne
      simp only [transcodeLine, cppGetline, if_pos trivial,
        splitAtDelim_append name scale ':' hn,
        splitAtDelim_of_not_mem scale ':' hs, if_neg hlen, hparse]
    · intro hparse hne
      have hlen : ¬ (scale.length = 0) := by
        simpa [List.length_eq_zero] using hne
      simp only [transcodeLine, cppGetline, if_pos trivial,
        splitAtDelim_append name scale ':' hn,
        splitAtDelim_of_not_mem scale ':' hs, if_neg hlen, hparse]
  · intro oldCache
    cases oldCache <;> rfl

/-- C2 witness: the general part of `C2_transcode_lines` evaluated on the
line `convA:2.0` (so `name = "convA"`, `scale = "2.0"`, on which
`std::stof` returns `0x40000000`, i.e. 2.0f). -/
theorem C2_transcode_lines_witness :
    transcodeLine [] [] ("convA:2.0".toList) =
      some (("convA".toList, "2.0".toList),
        some ("convA".toList ++ ": ".toList ++
          Nat.toDigits 16 (fp32divBy127 0x40000000) ++ ['\n'])) := by
  have h := ((C2_transcode_lines.1 [] [] ("convA".toList) ("2.0".toList)
    (by decide) (by decide)).2.1) 0x40000000 (by decide) (by decide)
  exact h

/-- C4: writing a cache blob of `L` bytes with `writeCalibrationCache` (which
replaces the whole file, ignoring prior contents) and reading it back with
`readCalibrationCache` yields the identical `L` bytes, with the
out-parameter `length` set to `L`. -/
theorem C4_write_read_roundtrip (bytes : List UInt8)
    (c : TrtInt8Calibrator) :
    TrtInt8Calibrator.writeCalibrationCache bytes bytes.length = bytes ∧
    (c.readCalibrationCache
      (some (TrtInt8Calibrator.writeCalibrationCache bytes
        bytes.length))).2.1 = some bytes ∧
    (c.readCalibrationCache
      (some (TrtInt8Calibrator.writeCalibrationCache bytes
        bytes.length))).2.2 = bytes.length := by
  have hw : TrtInt8Calibrator.writeCalibrationCache bytes bytes.length =
      bytes := List.take_length bytes
  refine ⟨hw, ?_, ?_⟩ <;> rw [hw] <;> rfl

/-- C5: when the cache file does not exist, `readCalibrationCache` stores 0
into the out-parameter `length` and returns a null pointer, with the object
state untouched — a normal return, not an error. -/
theorem C5_read_missing_cache (c : TrtInt8Calibrator) :
    c.readCalibrationCache none = (c, none, 0) := rfl

/-- C10: when the cache file exists but is empty, `readCalibrationCache`
stores 0 into `length` yet returns a non-null pointer (to the internal
zero-length `mCalibrationCache` buffer); a missing file returns a null
pointer with the same length 0, so the two cases differ only in the
pointer, never in the length. -/
theorem C10_read_empty_cache (c : TrtInt8Calibrator) :
    (c.readCalibrationCache (some [])).2.1 = some [] ∧
    (c.readCalibrationCache (some [])).2.2 = 0 ∧
    ((c.readCalibrationCache (some [])).2.1).isSome = true ∧
    ((c.readCalibrationCache none).2.1).isSome = false ∧
    (c.readCalibrationCache (some [])).2.2 =
      (c.readCalibrationCache none).2.2 :=
  ⟨rfl, rfl, rfl, rfl, rfl⟩

/-- C3: when the batch source is exhausted, `getBatch` returns `false`
with the object state (in particular every device buffer) and the bindings
array untouched; otherwise it returns `true` after copying, for each
`i < nbBindings`, the `i`-th input's `mInputBytes[i] * mBatchSize` batch
bytes into the `i`-th pre-allocated device buffer (capacity unchanged) and
storing that buffer's address into `bindings[i]`, entries at or beyond
`nbBindings` being left untouched. -/
theorem C3_getBatch_spec (c : TrtInt8Calibrator) (s : IBatchStream)
    (bindings : List (Option Nat)) (nb : Nat) (hs : c.mStream = some s) :
    (s.remaining = [] → c.getBatch bindings nb = some (c, bindings, false)) ∧
    (∀ batch rest, s.remaining = batch :: rest →
      ∀ r, c.getBatch bindings nb = some r →
        r.2.2 = true ∧
        (∀ i, i < nb →
          ∃ b src bytes, c.m_buffers[i]? = some b ∧ batch[i]? = some src ∧
            c.mInputBytes[i]? = some bytes ∧
            r.1.m_buffers[i]? =
              some ⟨b.cap, some (src.take (bytes * c.mBatchSize))⟩ ∧
            r.2.1[i]? = some (some i)) ∧
        (∀ i, nb ≤ i →
          r.1.m_buffers[i]? = c.m_buffers[i]? ∧
          r.2.1[i]? = bindings[i]?)) := by
  constructor
  · intro hrem
    simp only [TrtInt8Calibrator.getBatch, hs, hrem]
  · intro batch rest hrem r hr
    simp only [TrtInt8Calibrator.getBatch, hs, hrem] at hr
    split at hr
    case h_1 => exact absurd hr (by simp)
    case h_2 rr hcopy =>
      simp only [Option.some.injEq] at hr
      subst hr
      obtain ⟨hout, hin⟩ := copyLoop_spec batch c.mInputBytes c.mBatchSize
        nb 0 c.m_buffers bindings rr hcopy
      refine ⟨rfl, ?_, ?_⟩
      · intro i hi
        exact hin i (Nat.zero_le i) (by omega)
      · intro i hi
        exact hout i (Or.inr (by omega))

/-- C3 witness: `C3_getBatch_spec` applied to `demoCalib` (one input of 2
bytes per sample, batch size 2, one batch left): `getBatch` succeeds,
copies the 4 batch bytes into device buffer 0 and binds its address. -/
theorem C3_getBatch_spec_witness :
    demoCalib.mStream = some demoStream ∧
    demoResult.2.2 = true ∧
    (∃ b src bytes, demoCalib.m_buffers[0]? = some b ∧
      ([[1, 2, 3, 4]] : List (List UInt8))[0]? = some src ∧
      demoCalib.mInputBytes[0]? = some bytes ∧
      demoResult.1.m_buffers[0]? =
        some ⟨b.cap, some (src.take (bytes * demoCalib.mBatchSize))⟩ ∧
      demoResult.2.1[0]? = some (some 0)) := by
  have h := (C3_getBatch_spec demoCalib demoStream [none] 1 rfl).2
    [[1, 2, 3, 4]] [] rfl demoResult rfl
  exact ⟨rfl, h.1, h.2.1 0 (by omega)⟩

/-- C6: each of the four algorithm keys maps to its matching selector in
`STR2CAT_MAPPING`; a calibrator constructed (in either mode) with a mapped
key reports that selector from `getAlgorithm`, and no sequence of
operations on the object ever changes it. -/
theorem C6_algorithm_selector :
    STR2CAT_MAPPING "legacy" =
      some CalibrationAlgoType.kLEGACY_CALIBRATION ∧
    STR2CAT_MAPPING "entropy" =
      some CalibrationAlgoType.kENTROPY_CALIBRATION ∧
    STR2CAT_MAPPING "entropy_2" =
      some CalibrationAlgoType.kENTROPY_CALIBRATION_2 ∧
    STR2CAT_MAPPING "minmax" =
      some CalibrationAlgoType.kMINMAX_CALIBRATION ∧
    (∀ key a, STR2CAT_MAPPING key = some a →
      (∀ stream cache q c, mkCalibratorStream stream cache key q = some c →
        c.getAlgorithm = a ∧
        ∀ ops c1, execOps c ops = some c1 → c1.getAlgorithm = a) ∧
      (∀ cache bsz q c, mkCalibratorReplay cache key bsz q = some c →
        c.getAlgorithm = a ∧
        ∀ ops c1, execOps c ops = some c1 → c1.getAlgorithm = a)) := by
  refine ⟨rfl, rfl, rfl, rfl, ?_⟩
  intro key a hkey
  constructor
  · intro stream cache q c h
    simp only [mkCalibratorStream, hkey, Option.map_some',
      Option.some.injEq] at h
    subst h
    refine ⟨rfl, ?_⟩
    intro ops c1 h1
    exact (execOps_preserves ops _ c1 h1).1
  · intro cache bsz q c h
    simp only [mkCalibratorReplay, hkey, Option.map_some',
      Option.some.injEq] at h
    subst h
    refine ⟨rfl, ?_⟩
    intro ops c1 h1
    exact (execOps_preserves ops _ c1 h1).1

/-- C6 witness: `C6_algorithm_selector` applied to the key `"minmax"` in
cache-replay mode, followed by a cache read, which leaves the selector
unchanged. -/
theorem C6_algorithm_selector_witness :
    mkCalibratorReplay "cache" "minmax" 3 1 = some demoReplay ∧
    demoReplay.getAlgorithm = CalibrationAlgoType.kMINMAX_CALIBRATION ∧
    execOps demoReplay [CalOp.opReadCache (some [7])] =
      some demoReplayRead ∧
    demoReplayRead.getAlgorithm =
      CalibrationAlgoType.kMINMAX_CALIBRATION := by
  have h := (C6_algorithm_selector.2.2.2.2 "minmax"
    CalibrationAlgoType.kMINMAX_CALIBRATION rfl).2 "cache" 3 1
    demoReplay rfl
  exact ⟨rfl, h.1, rfl,
    h.2 [CalOp.opReadCache (some [7])] demoReplayRead rfl⟩

/-- C7: the stream-fed constructor allocates exactly one device buffer per
entry of the batch source's `bytesPerBatch()`, the `i`-th with capacity
`batchSize * bytesPerBatch[i]`, and no sequence of operations changes the
buffer count or any capacity. -/
theorem C7_buffer_invariant (stream : IBatchStream) (cache algo : String)
    (q : Rat) (c : TrtInt8Calibrator)
    (h : mkCalibratorStream stream cache algo q = some c) :
    c.m_buffers.length = stream.bytesPerBatch.length ∧
    c.m_buffers.map DeviceBuffer.cap =
      stream.bytesPerBatch.map (fun bytes => stream.batchSize * bytes) ∧
    (∀ ops c1, execOps c ops = some c1 →
      c1.m_buffers.length = c.m_buffers.length ∧
      c1.m_buffers.map DeviceBuffer.cap =
        c.m_buffers.map DeviceBuffer.cap) := by
  simp only [mkCalibratorStream, Option.map_eq_some'] at h
  obtain ⟨a, ha, hc⟩ := h
  subst hc
  refine ⟨by simp, by rw [List.map_map]; rfl, ?_⟩
  intro ops c1 h1
  have h3 := (execOps_preserves ops _ c1 h1).2.2
  have h4 := congrArg List.length h3
  simp only [List.length_map] at h4
  exact ⟨by simpa using h4, h3⟩

/-- C7 witness: `C7_buffer_invariant` on the claim's example — 3 inputs,
batch size 4, byte sizes 100/50/25 give 3 buffers of capacities
400/200/100. -/
theorem C7_buffer_invariant_witness :
    mkCalibratorStream demoStream3 "cache" "entropy" 0 = some demoCalib3 ∧
    demoCalib3.m_buffers.length = 3 ∧
    demoCalib3.m_buffers.map DeviceBuffer.cap = [400, 200, 100] := by
  have h := C7_buffer_invariant demoStream3 "cache" "entropy" 0
    demoCalib3 rfl
  exact ⟨rfl, h.1, h.2.1⟩

/-- C8: `getBatchSize` returns the batch size fixed at construction (the
stream's `getBatchSize()` in stream-fed mode, the `batchsize` argument in
cache-replay mode) and no sequence of operations ever changes it. -/
theorem C8_batchSize_constant :
    (∀ stream cache algo q c,
      mkCalibratorStream stream cache algo q = some c →
        c.getBatchSize = stream.batchSize ∧
        ∀ ops c1, execOps c ops = some c1 →
          c1.getBatchSize = c.getBatchSize) ∧
    (∀ cache algo bsz q c,
      mkCalibratorReplay cache algo bsz q = some c →
        c.getBatchSize = bsz ∧
        ∀ ops c1, execOps c ops = some c1 →
          c1.getBatchSize = c.getBatchSize) := by
  constructor
  · intro stream cache algo q c h
    simp only [mkCalibratorStream, Option.map_eq_some'] at h
    obtain ⟨a, ha, hc⟩ := h
    subst hc
    exact ⟨rfl, fun ops c1 h1 => (execOps_preserves ops _ c1 h1).2.1⟩
  · intro cache algo bsz q c h
    simp only [mkCalibratorReplay, Option.map_eq_some'] at h
    obtain ⟨a, ha, hc⟩ := h
    subst hc
    exact ⟨rfl, fun ops c1 h1 => (execOps_preserves ops _ c1 h1).2.1⟩

/-- C8 witness: `C8_batchSize_constant` on `demoCalib`: batch size 2 at
construction, still 2 after a successful `getBatch` consumed a batch. -/
theorem C8_batchSize_constant_witness :
    mkCalibratorStream demoStream "cache" "entropy" 0 = some demoCalib ∧
    demoCalib.getBatchSize = 2 ∧
    execOps demoCalib [CalOp.opGetBatch [none] 1] = some demoResult.1 ∧
    demoResult.1.getBatchSize = 2 := by
  have h := C8_batchSize_constant.1 demoStream "cache" "entropy" 0
    demoCalib rfl
  refine ⟨rfl, h.1, rfl, ?_⟩
  exact (h.2 [CalOp.opGetBatch [none] 1] demoResult.1 rfl).trans h.1

/-- C9: only the cache-replay constructor initializes `mQuantile` (to its
`quantile` parameter, whose default argument is the literal 0.9999); the
stream-fed constructor never writes it, so after stream-fed construction
`getQuantile()` returns whatever indeterminate value the member happened to
hold (modelled by the `indetQuantile` parameter), not any configured
default. -/
theorem C9_quantile_initialization :
    (∀ stream cache algo iq c,
      mkCalibratorStream stream cache algo iq = some c →
        c.getQuantile = iq) ∧
    (∀ cache algo bsz q c,
      mkCalibratorReplay cache algo bsz q = some c →
        c.getQuantile = q) ∧
    defaultQuantile = 9999 / 10000 := by
  refine ⟨?_, ?_, rfl⟩
  · intro stream cache algo iq c h
    simp only [mkCalibratorStream, Option.map_eq_some'] at h
    obtain ⟨a, ha, hc⟩ := h
    subst hc
    rfl
  · intro cache algo bsz q c h
    simp only [mkCalibratorReplay, Option.map_eq_some'] at h
    obtain ⟨a, ha, hc⟩ := h
    subst hc
    rfl

/-- C9 witness: `C9_quantile_initialization` with two different
indeterminate residues (0 and 5): the stream-fed calibrator's `getQuantile`
reproduces whichever residue was there, while the replay constructor stores
its argument (here 1). -/
theorem C9_quantile_initialization_witness :
    mkCalibratorStream demoStream "cache" "entropy" 0 = some demoCalib ∧
    demoCalib.getQuantile = 0 ∧
    mkCalibratorStream demoStream "cache" "entropy" 5 = some demoCalibQ ∧
    demoCalibQ.getQuantile = 5 ∧
    mkCalibratorReplay "cache" "minmax" 3 1 = some demoReplay ∧
    demoReplay.getQuantile = 1 := by
  refine ⟨rfl, ?_, rfl, ?_, rfl, ?_⟩
  · exact C9_quantile_initialization.1 demoStream "cache" "entropy" 0
      demoCalib rfl
  · exact C9_quantile_initialization.1 demoStream "cache" "entropy" 5
      demoCalibQ rfl
  · exact C9_quantile_initialization.2.1 "cache" "minmax" 3 1
      demoReplay rfl

end Forward
